import Mathlib

/-!
Verification of the rate-cache core of the `lc-exchanger` server
(`src/server/main.go`): the upstream fetcher `fetchFrankfurter`, the
read-through cache `getRates` over `rateCache`, and the filter
`filterRates`.

Modelling conventions:
* Go `time.Time` / `time.Duration` values are integers (nanoseconds);
  `time.Since(t)` at instant `now` is `now - t`.
* Go `float64` rate values are only ever copied, never computed with, so
  they are modelled as `ℚ` (any type with decidable equality would do).
* Go maps `map[string]float64` are association lists `List (String × ℚ)`
  with lookup `mapLookup`; Go errors (all built by `errors.New`) are their
  message strings.
* The network interaction of one `fetchFrankfurter` call is an explicit
  environment `FetchEnv` (outcome of building the request, outcome of
  `httpClient.Do`, and the completion instant `time.Now()`).
* `getRates` is a state transformer on `RateCache`; the outcome its
  (potential) fetch would produce is passed as a parameter, and the output
  records whether the fetcher was actually invoked.  Concurrency is
  modelled by serializing callers through the write-locked section
  (`getRatesLocked`), which is exactly what the `sync.RWMutex` discipline
  of the source enforces: all mutation happens under the exclusive lock.
-/

/-- Association-list lookup, the model of Go's `payload.Rates[code]`. -/
def mapLookup (m : List (String × ℚ)) (k : String) : Option ℚ :=
  match m with
  | [] => none
  | (k₁, v) :: rest => if k₁ = k then some v else mapLookup rest k

/-- `targetCurrencies = []string{"CNY", "SEK", "EUR"}` from main.go. -/
def targetCurrencies : List String := ["CNY", "SEK", "EUR"]

/-- The loop body of `filterRates`, abstracted over the list of codes it
iterates: for each code in `targets` (in order), look it up in `rates` and
keep the pair when present. -/
def filterRatesWith (targets : List String) (rates : List (String × ℚ)) :
    List (String × ℚ) :=
  match targets with
  | [] => []
  | code :: rest =>
    match mapLookup rates code with
    | some value => (code, value) :: filterRatesWith rest rates
    | none => filterRatesWith rest rates

/-- `frankfurterResponse` from main.go: `Base`, `Date`, `Rates`. -/
structure FrankfurterResponse where
  base : String
  date : String
  rates : List (String × ℚ)
deriving DecidableEq

/-- `filterRates` from main.go: build a fresh map holding, for each code of
`targetCurrencies` present in `payload.Rates`, its rate. -/
def filterRates (payload : FrankfurterResponse) : List (String × ℚ) :=
  filterRatesWith targetCurrencies payload.rates

/-- `cacheTTL = 5 * time.Minute`, in nanoseconds. -/
def cacheTTL : ℤ := 5 * 60 * 1000000000

/-- `rateCache` from main.go (without the lock, which the state-transformer
model replaces): `payload *frankfurterResponse` and `fetchedAt time.Time`.
A `nil` payload pointer is `none`. -/
structure RateCache where
  payload : Option FrankfurterResponse
  fetchedAt : ℤ
deriving DecidableEq

/-- Outcome of one `fetchFrankfurter` call: either an error message or the
decoded payload together with the completion time. -/
abbrev FetchResult := Except String (FrankfurterResponse × ℤ)

/-- Output of one `getRates` call: the returned value (filtered rates and
`fetchedAt`, or an error), the cache state after the call, and whether the
upstream fetcher was invoked during the call. -/
structure GetRatesOut where
  result : Except String (List (String × ℚ) × ℤ)
  cache : RateCache
  fetched : Bool

/-- The refresh step of `getRates` (lines 101-109 of main.go): invoke the
fetcher; on error return it and leave the cache untouched; on success store
the payload and its fetch time wholesale and return the filtered rates. -/
def doRefresh (fetch : FetchResult) (c : RateCache) : GetRatesOut :=
  match fetch with
  | .error e => { result := .error e, cache := c, fetched := true }
  | .ok (payload, fetchedAt) =>
    { result := .ok (filterRates payload, fetchedAt)
      cache := { payload := some payload, fetchedAt := fetchedAt }
      fetched := true }

/-- The write-locked section of `getRates` (lines 95-109 of main.go):
re-check freshness under the exclusive lock and only fetch when still
stale or absent. -/
def getRatesLocked (now : ℤ) (fetch : FetchResult) (c : RateCache) :
    GetRatesOut :=
  match c.payload with
  | some payload =>
    if now - c.fetchedAt < cacheTTL then
      { result := .ok (filterRates payload, c.fetchedAt), cache := c
        fetched := false }
    else doRefresh fetch c
  | none => doRefresh fetch c

/-- `getRates` from main.go: the read-locked fast path (lines 88-93), then
the write-locked section. Within a single sequential call the state cannot
change between the two checks, so the fast path test coincides with the
re-check. -/
def getRates (now : ℤ) (fetch : FetchResult) (c : RateCache) : GetRatesOut :=
  match c.payload with
  | some payload =>
    if now - c.fetchedAt < cacheTTL then
      { result := .ok (filterRates payload, c.fetchedAt), cache := c
        fetched := false }
    else getRatesLocked now fetch c
  | none => getRatesLocked now fetch c

/-- Serialized execution of a list of callers through the write-locked
section, each with its call instant and the fetch outcome its (potential)
upstream call would produce.  Returns the final cache state and the number
of fetcher invocations.  This is the model of concurrent callers: the
`sync.RWMutex` serializes all entries to the locked section, and only the
locked section fetches or mutates. -/
def runCallers (callers : List (ℤ × FetchResult)) (c : RateCache) :
    RateCache × ℕ :=
  match callers with
  | [] => (c, 0)
  | (now, fetch) :: rest =>
    let out := getRatesLocked now fetch c
    let next := runCallers rest out.cache
    (next.1, (if out.fetched then 1 else 0) + next.2)

/-- An HTTP response as `fetchFrankfurter` consumes it: status code, status
description (`resp.Status`), and the outcome of JSON-decoding the body. -/
structure HttpResponse where
  statusCode : ℕ
  status : String
  body : Except String FrankfurterResponse

/-- The environment of one `fetchFrankfurter` call: the outcome of
`http.NewRequestWithContext`, the outcome of `httpClient.Do` (a transport
error or a response), and the instant `time.Now()` observed at successful
completion. -/
structure FetchEnv where
  newRequest : Except String Unit
  doRequest : Except String HttpResponse
  completedAt : ℤ

/-- The tail of `fetchFrankfurter` after the status check (lines 128-135 of
main.go): decode the body, reject a base other than `"USD"`, otherwise
succeed with the payload and the completion time. -/
def decodeAndValidate (body : Except String FrankfurterResponse) (t : ℤ) :
    FetchResult :=
  match body with
  | .error e => .error e
  | .ok payload =>
    if payload.base ≠ "USD" then
      .error "unexpected base currency in response"
    else .ok (payload, t)

/-- `fetchFrankfurter` from main.go: build the request, perform it, reject a
status other than `200` (`http.StatusOK`) with an error carrying the status
description, then decode and validate. -/
def fetchFrankfurter (env : FetchEnv) : FetchResult :=
  match env.newRequest with
  | .error e => .error e
  | .ok _ =>
    match env.doRequest with
    | .error e => .error e
    | .ok resp =>
      if resp.statusCode ≠ 200 then
        .error ("frankfurter responded with status " ++ resp.status)
      else decodeAndValidate resp.body env.completedAt

/-- Modelled from the spec (not present in the source, which compares the
code to `200` only): the class of HTTP success statuses, `2xx`. -/
def isSuccessStatus (code : ℕ) : Bool :=
  200 ≤ code && code < 300

/-- The cache invariant of the spec's data model: a stored snapshot always
has the expected base currency. -/
def cacheInv (c : RateCache) : Prop :=
  ∀ p, c.payload = some p → p.base = "USD"

/-- A sample decoded upstream payload, used to instantiate theorems at
concrete inputs. -/
def usdPayload : FrankfurterResponse :=
  { base := "USD", date := "2026-10-10", rates := [("CNY", 7)] }

/-!
Heap model for the aliasing claim: Go maps are heap objects, so to state
that the returned map is a fresh allocation distinct from the cached
snapshot's own map we thread an explicit heap of rate maps (addresses are
indices) through the same `getRates` control flow.
-/

/-- The value of one Go `map[string]float64` object. -/
abbrev RatesMap := List (String × ℚ)

/-- A heap of rate-map objects; an address is an index into the list. -/
abbrev Heap := List RatesMap

/-- Read the map object at an address (an unallocated address reads as the
empty map; the theorems only ever read allocated addresses). -/
def heapGet (h : Heap) (a : ℕ) : RatesMap :=
  match h, a with
  | [], _ => []
  | m :: _, 0 => m
  | _ :: rest, a + 1 => heapGet rest a

/-- Overwrite the map object at an address (a caller mutating the map it
received). -/
def heapSet (h : Heap) (a : ℕ) (m : RatesMap) : Heap :=
  match h, a with
  | [], _ => []
  | _ :: rest, 0 => m :: rest
  | x :: rest, a + 1 => x :: heapSet rest a m

/-- `frankfurterResponse` with its `Rates` map held by reference. -/
structure PayloadRef where
  base : String
  date : String
  ratesAddr : ℕ

/-- `rateCache` with the payload's rates held by reference into the heap. -/
structure CacheRef where
  payload : Option PayloadRef
  fetchedAt : ℤ

/-- Output of one heap-model `getRates` call: on success the address of the
returned (freshly built) map and the `fetchedAt` time, plus the cache state
and heap after the call. -/
structure GetRatesOutH where
  result : Except String (ℕ × ℤ)
  cache : CacheRef
  heap : Heap

/-- Heap model of the refresh step: JSON decoding allocates the payload's
rates map afresh, and `filterRates` allocates the result map afresh. -/
def refreshH (fetch : FetchResult) (c : CacheRef) (h : Heap) : GetRatesOutH :=
  match fetch with
  | .error e => { result := .error e, cache := c, heap := h }
  | .ok (q, t) =>
    { result := .ok (h.length + 1, t)
      cache := { payload := some { base := q.base, date := q.date,
                                   ratesAddr := h.length }
                 fetchedAt := t }
      heap := h ++ [q.rates, filterRatesWith targetCurrencies q.rates] }

/-- Heap model of `getRates`: same control flow as `getRates`, with
`filterRates` reading the cached map through its address and allocating its
result as a new object. -/
def getRatesH (now : ℤ) (fetch : FetchResult) (c : CacheRef) (h : Heap) :
    GetRatesOutH :=
  match c.payload with
  | some p =>
    if now - c.fetchedAt < cacheTTL then
      { result := .ok (h.length, c.fetchedAt), cache := c
        heap := h ++ [filterRatesWith targetCurrencies (heapGet h p.ratesAddr)] }
    else refreshH fetch c h
  | none => refreshH fetch c h

/-!
Helper lemmas. None of these is a claim's theorem; they are shared
infrastructure.
-/

theorem heapGet_heapSet_ne (h : Heap) (a b : ℕ) (m : RatesMap) (hne : a ≠ b) :
    heapGet (heapSet h a m) b = heapGet h b := by
  induction h generalizing a b with
  | nil => cases a <;> rfl
  | cons x rest ih =>
    cases a with
    | zero =>
      cases b with
      | zero => exact absurd rfl hne
      | succ b => rfl
    | succ a =>
      cases b with
      | zero => rfl
      | succ b => exact ih a b fun hab => hne (by omega)

theorem getRates_eq_getRatesLocked (now : ℤ) (fetch : FetchResult)
    (c : RateCache) : getRates now fetch c = getRatesLocked now fetch c := by
  cases hp : c.payload with
  | none => simp [getRates, getRatesLocked, hp]
  | some p =>
    by_cases h : now - c.fetchedAt < cacheTTL <;>
      simp [getRates, getRatesLocked, hp, h]

theorem getRatesLocked_fresh (now : ℤ) (fetch : FetchResult) (c : RateCache)
    (p : FrankfurterResponse) (hp : c.payload = some p)
    (hfresh : now - c.fetchedAt < cacheTTL) :
    getRatesLocked now fetch c =
      { result := .ok (filterRates p, c.fetchedAt), cache := c
        fetched := false } := by
  simp [getRatesLocked, hp, hfresh]

theorem getRatesLocked_stale (now : ℤ) (fetch : FetchResult) (c : RateCache)
    (hstale : c.payload = none ∨ ¬ now - c.fetchedAt < cacheTTL) :
    getRatesLocked now fetch c = doRefresh fetch c := by
  cases hp : c.payload with
  | none => simp [getRatesLocked, hp]
  | some p =>
    rcases hstale with h | h
    · rw [hp] at h; exact absurd h (by simp)
    · simp [getRatesLocked, hp, h]

theorem mapLookup_filterRatesWith (targets : List String)
    (rates : List (String × ℚ)) (c : String) (v : ℚ) :
    mapLookup (filterRatesWith targets rates) c = some v ↔
      c ∈ targets ∧ mapLookup rates c = some v := by
  induction targets with
  | nil => simp [filterRatesWith, mapLookup]
  | cons code rest ih =>
    cases hcode : mapLookup rates code with
    | none =>
      simp only [filterRatesWith, hcode, ih, List.mem_cons]
      constructor
      · rintro ⟨hmem, hv⟩; exact ⟨Or.inr hmem, hv⟩
      · rintro ⟨hmem, hv⟩
        rcases hmem with hcc | hmem
        · subst hcc; rw [hcode] at hv; exact absurd hv (by simp)
        · exact ⟨hmem, hv⟩
    | some value =>
      by_cases hcc : code = c
      · subst hcc
        simp [filterRatesWith, hcode, mapLookup, eq_comm]
      · have hcc2 : ¬ c = code := fun h => hcc h.symm
        simp only [filterRatesWith, hcode, mapLookup, if_neg hcc, ih,
          List.mem_cons]
        constructor
        · rintro ⟨hmem, hv⟩; exact ⟨Or.inr hmem, hv⟩
        · rintro ⟨hmem, hv⟩
          rcases hmem with hcc3 | hmem
          · exact absurd hcc3 hcc2
          · exact ⟨hmem, hv⟩

theorem runCallers_all_fresh (callers : List (ℤ × FetchResult))
    (c : RateCache)
    (hfresh : ∀ x ∈ callers,
      (∃ p, c.payload = some p) ∧ x.1 - c.fetchedAt < cacheTTL) :
    runCallers callers c = (c, 0) := by
  induction callers with
  | nil => rfl
  | cons x rest ih =>
    obtain ⟨⟨p, hp⟩, hf⟩ := hfresh x (List.mem_cons_self x rest)
    have hlocked := getRatesLocked_fresh x.1 x.2 c p hp hf
    simp only [runCallers, hlocked]
    rw [ih fun y hy => hfresh y (List.mem_cons_of_mem x hy)]
    rfl

theorem getRates_error_outcome (now : ℤ) (e : String) (c : RateCache) :
    (getRates now (.error e) c).cache = c ∧
    ((getRates now (.error e) c).fetched = true →
      (getRates now (.error e) c).result = .error e) := by
  rcases c with ⟨payload, fetchedAt⟩
  cases payload with
  | none => exact ⟨rfl, fun _ => rfl⟩
  | some p =>
    by_cases hfr : now - fetchedAt < cacheTTL
    · refine ⟨?_, ?_⟩
      · simp [getRates, hfr]
      · intro hf
        simp [getRates, hfr] at hf
    · refine ⟨?_, fun _ => ?_⟩
      · simp [getRates, getRatesLocked, doRefresh, hfr]
      · simp [getRates, getRatesLocked, doRefresh, hfr]

theorem fetchFrankfurter_ok_base (env : FetchEnv) (p : FrankfurterResponse)
    (t : ℤ) (hok : fetchFrankfurter env = .ok (p, t)) : p.base = "USD" := by
  unfold fetchFrankfurter decodeAndValidate at hok
  split at hok
  · exact absurd hok (by simp)
  · split at hok
    · exact absurd hok (by simp)
    · split at hok
      · exact absurd hok (by simp)
      · split at hok
        · exact absurd hok (by simp)
        · split at hok
          · exact absurd hok (by simp)
          · simp_all

/-!
Claim theorems.
-/

/-- C1: for every cache state and every call to `getRates` in which the
fetcher fails, `getRates` returns an error and the cache state is left
exactly as it was before the call (an existing snapshot is preserved
unchanged; if none existed, none is stored). -/
theorem getRates_fetcher_failure_leaves_cache (now : ℤ) (e : String)
    (c : RateCache) :
    (getRates now (.error e) c).cache = c ∧
    ((getRates now (.error e) c).fetched = true →
      (getRates now (.error e) c).result = .error e) :=
  getRates_error_outcome now e c

/-- Witness for C1 at a concrete empty cache and failing fetch. -/
theorem getRates_fetcher_failure_leaves_cache_witness :
    (getRates 0 (.error "boom") { payload := none, fetchedAt := 0 }).cache =
      { payload := none, fetchedAt := 0 } ∧
    (getRates 0 (.error "boom") { payload := none, fetchedAt := 0 }).result =
      .error "boom" :=
  ⟨(getRates_fetcher_failure_leaves_cache 0 "boom"
      { payload := none, fetchedAt := 0 }).1,
   (getRates_fetcher_failure_leaves_cache 0 "boom"
      { payload := none, fetchedAt := 0 }).2 rfl⟩

/-- C2: when a snapshot exists and its age is strictly below the TTL,
`getRates` returns the cached snapshot filtered to the target set together
with the cached `fetchedAt`, does not invoke the fetcher, and leaves the
state unchanged; consequently a second call while the snapshot is still
fresh returns the same `fetchedAt`. -/
theorem getRates_fresh_fast_path (now : ℤ) (fetch : FetchResult)
    (c : RateCache) (p : FrankfurterResponse) (hp : c.payload = some p)
    (hfresh : now - c.fetchedAt < cacheTTL) :
    getRates now fetch c =
      { result := .ok (filterRates p, c.fetchedAt), cache := c
        fetched := false } ∧
    ∀ now2 fetch2, now2 - c.fetchedAt < cacheTTL →
      (getRates now2 fetch2 (getRates now fetch c).cache).result =
        .ok (filterRates p, c.fetchedAt) := by
  have h1 : getRates now fetch c =
      { result := .ok (filterRates p, c.fetchedAt), cache := c
        fetched := false } := by
    rw [getRates_eq_getRatesLocked]
    exact getRatesLocked_fresh now fetch c p hp hfresh
  refine ⟨h1, fun now2 fetch2 hf2 => ?_⟩
  rw [h1, getRates_eq_getRatesLocked,
    getRatesLocked_fresh now2 fetch2 c p hp hf2]

/-- Witness for C2 at a concrete fresh cache: two calls inside the TTL
window both return the rates fetched at time `0`. -/
theorem getRates_fresh_fast_path_witness :
    getRates 1 (.error "unused")
        { payload := some { base := "USD", date := "2026-10-10",
                            rates := [("CNY", 7)] }
          fetchedAt := 0 } =
      { result := .ok (filterRates { base := "USD", date := "2026-10-10",
                                     rates := [("CNY", 7)] }, 0)
        cache := { payload := some { base := "USD", date := "2026-10-10",
                                     rates := [("CNY", 7)] }
                   fetchedAt := 0 }
        fetched := false } ∧
    (getRates 2 (.error "unused2")
        (getRates 1 (.error "unused")
          { payload := some { base := "USD", date := "2026-10-10",
                              rates := [("CNY", 7)] }
            fetchedAt := 0 }).cache).result =
      .ok (filterRates { base := "USD", date := "2026-10-10",
                         rates := [("CNY", 7)] }, 0) :=
  ⟨(getRates_fresh_fast_path 1 (.error "unused") _ _ rfl (by decide)).1,
   (getRates_fresh_fast_path 1 (.error "unused") _ _ rfl (by decide)).2
      2 (.error "unused2") (by decide)⟩

/-- C3: the filtered output maps a code `c` to `v` exactly when `c` is in
the target set and the upstream rates map `c` to `v`; target codes absent
upstream are silently omitted, so upstream `{A, B, C, D}` against targets
`{A, B, C}` gives exactly `{A, B, C}`, and with `C` missing upstream
exactly `{A, B}`. -/
theorem filterRates_lookup_iff :
    (∀ (payload : FrankfurterResponse) (c : String) (v : ℚ),
      mapLookup (filterRates payload) c = some v ↔
        c ∈ targetCurrencies ∧ mapLookup payload.rates c = some v) ∧
    (∀ (targets : List String) (rates : List (String × ℚ)) (c : String)
        (v : ℚ),
      mapLookup (filterRatesWith targets rates) c = some v ↔
        c ∈ targets ∧ mapLookup rates c = some v) ∧
    filterRatesWith ["A", "B", "C"]
        [("A", 1), ("B", 2), ("C", 3), ("D", 4)] =
      [("A", 1), ("B", 2), ("C", 3)] ∧
    filterRatesWith ["A", "B", "C"] [("A", 1), ("B", 2), ("D", 4)] =
      [("A", 1), ("B", 2)] :=
  ⟨fun payload => mapLookup_filterRatesWith targetCurrencies payload.rates,
   mapLookup_filterRatesWith, by decide, by decide⟩

/-- C4 counterexample: two concurrent callers in one staleness window with
no snapshot, whose fetch attempts fail, cause two fetcher invocations — the
code retries the fetch for every serialized caller when no fresh snapshot
was stored, so "at most one invocation" fails as soon as a fetch fails. -/
theorem single_flight_counterexample :
    (runCallers
        [((0 : ℤ), (Except.error "upstream down" : FetchResult)),
         ((0 : ℤ), (Except.error "upstream down" : FetchResult))]
        { payload := none, fetchedAt := 0 }).2 = 2 := by
  decide

/-- C4 (amended): among serialized callers within one TTL window whose
fetch attempts all succeed (completing no earlier than they were called),
at most one fetcher invocation occurs, and exactly one when no snapshot
existed and there is at least one caller.  When a fetch fails, each
subsequent caller retries, so failing windows may see one invocation per
caller. -/
theorem single_flight_success (callers : List (ℤ × FetchResult))
    (c : RateCache) (t0 : ℤ)
    (hwin : ∀ x ∈ callers, t0 ≤ x.1 ∧ x.1 < t0 + cacheTTL)
    (hmono : ∀ x ∈ callers, ∀ q t, x.2 = .ok (q, t) → x.1 ≤ t)
    (hsucc : ∀ x ∈ callers, ∀ e, x.2 ≠ .error e) :
    (runCallers callers c).2 ≤ 1 ∧
    (c.payload = none → callers ≠ [] → (runCallers callers c).2 = 1) := by
  induction callers generalizing c with
  | nil => exact ⟨Nat.zero_le 1, fun _ h => absurd rfl h⟩
  | cons x rest ih =>
    obtain ⟨now, f⟩ := x
    have hwin0 := hwin (now, f) (List.mem_cons_self _ _)
    have hwinr : ∀ y ∈ rest, t0 ≤ y.1 ∧ y.1 < t0 + cacheTTL :=
      fun y hy => hwin y (List.mem_cons_of_mem _ hy)
    have hmonor : ∀ y ∈ rest, ∀ q t, y.2 = .ok (q, t) → y.1 ≤ t :=
      fun y hy => hmono y (List.mem_cons_of_mem _ hy)
    have hsuccr : ∀ y ∈ rest, ∀ e, y.2 ≠ .error e :=
      fun y hy => hsucc y (List.mem_cons_of_mem _ hy)
    have hfetchCase : ∀ hstale : c.payload = none ∨
        ¬ now - c.fetchedAt < cacheTTL,
        (runCallers ((now, f) :: rest) c).2 = 1 := by
      intro hstale
      cases hf : f with
      | error e => exact absurd hf (hsucc (now, f) (List.mem_cons_self _ _) e)
      | ok qt =>
        obtain ⟨q, t⟩ := qt
        have hnowt : now ≤ t :=
          hmono (now, f) (List.mem_cons_self _ _) q t hf
        have hlocked : getRatesLocked now (Except.ok (q, t)) c =
            { result := .ok (filterRates q, t)
              cache := { payload := some q, fetchedAt := t }
              fetched := true } := by
          rw [getRatesLocked_stale now (Except.ok (q, t)) c hstale]; rfl
        have hrest : runCallers rest { payload := some q, fetchedAt := t } =
            ({ payload := some q, fetchedAt := t }, 0) := by
          refine runCallers_all_fresh rest _ fun y hy => ⟨⟨q, rfl⟩, ?_⟩
          have hy2 := hwinr y hy
          have h0 := hwin0.1
          simp only
          omega
        simp [runCallers, hlocked, hrest]
    rcases hc : c.payload with _ | p
    · have h1 := hfetchCase (Or.inl hc)
      exact ⟨le_of_eq h1, fun _ _ => h1⟩
    · by_cases hfr : now - c.fetchedAt < cacheTTL
      · have hlocked := getRatesLocked_fresh now f c p hc hfr
        have ihres := ih c hwinr hmonor hsuccr
        constructor
        · simp only [runCallers, hlocked]
          simpa using ihres.1
        · intro hnone
          exact absurd hnone (by simp)
      · have h1 := hfetchCase (Or.inr hfr)
        exact ⟨le_of_eq h1, fun _ _ => h1⟩

/-- Witness for the amended C4: one caller at time `0` on an empty cache
with a successful fetch completing at time `1` performs exactly one
invocation. -/
theorem single_flight_success_witness :
    (runCallers [((0 : ℤ), (Except.ok (usdPayload, (1 : ℤ)) : FetchResult))]
        { payload := none, fetchedAt := 0 }).2 ≤ 1 ∧
    (runCallers [((0 : ℤ), (Except.ok (usdPayload, (1 : ℤ)) : FetchResult))]
        { payload := none, fetchedAt := 0 }).2 = 1 := by
  have h := single_flight_success
    [((0 : ℤ), (Except.ok (usdPayload, (1 : ℤ)) : FetchResult))]
    { payload := none, fetchedAt := 0 } 0
    (by decide)
    (by
      rintro x hx q t heq
      rw [List.mem_singleton] at hx
      subst hx
      simp only [Except.ok.injEq, Prod.mk.injEq] at heq
      rw [← heq.2]
      decide)
    (by
      rintro x hx e
      rw [List.mem_singleton] at hx
      subst hx
      simp)
  exact ⟨h.1, h.2 rfl (by simp)⟩

/-- C5 counterexample: on a required refresh whose fetch fails with the
status error for a 503 response, `getRates` returns that very fetcher
error, byte for byte — there is no distinct normalized cache-miss error, so
the raw fetcher error does escape the cache boundary. -/
theorem error_normalization_counterexample :
    (getRates 0
        (.error "frankfurter responded with status 503 Service Unavailable")
        { payload := none, fetchedAt := 0 }).result =
      .error "frankfurter responded with status 503 Service Unavailable" :=
  rfl

/-- C5 (amended): whenever `getRates` invokes the fetcher and the fetcher
fails, `getRates` returns the fetcher's error to its caller unchanged; the
only normalization is in the HTTP layer, which maps every error to one
generic failure response. -/
theorem getRates_propagates_fetch_error (now : ℤ) (e : String)
    (c : RateCache)
    (hf : (getRates now (.error e) c).fetched = true) :
    (getRates now (.error e) c).result = .error e :=
  (getRates_error_outcome now e c).2 hf

/-- Witness for the amended C5 at a concrete stale cache. -/
theorem getRates_propagates_fetch_error_witness :
    (getRates 0 (.error "connection refused")
        { payload := none, fetchedAt := 5 }).result =
      .error "connection refused" :=
  getRates_propagates_fetch_error 0 "connection refused"
    { payload := none, fetchedAt := 5 } rfl

/-- C6: when the snapshot is absent or its age has reached the TTL,
`getRates` invokes the fetcher and, on success, replaces the stored
snapshot wholesale; the returned `fetchedAt` is the new fetch time, which
is strictly later than the previous one. -/
theorem getRates_stale_refreshes (now t : ℤ) (q : FrankfurterResponse)
    (c : RateCache)
    (hstale : c.payload = none ∨ cacheTTL ≤ now - c.fetchedAt)
    (hmono : now ≤ t) :
    (getRates now (.ok (q, t)) c).fetched = true ∧
    (getRates now (.ok (q, t)) c).cache =
      { payload := some q, fetchedAt := t } ∧
    (getRates now (.ok (q, t)) c).result = .ok (filterRates q, t) ∧
    (c.payload ≠ none → c.fetchedAt < t) := by
  have hstale2 : c.payload = none ∨ ¬ now - c.fetchedAt < cacheTTL := by
    rcases hstale with h | h
    · exact Or.inl h
    · exact Or.inr (by omega)
  rw [getRates_eq_getRatesLocked,
    getRatesLocked_stale now (.ok (q, t)) c hstale2]
  refine ⟨rfl, rfl, rfl, fun hne => ?_⟩
  rcases hstale with h | h
  · exact absurd h hne
  · have hpos : (0 : ℤ) < cacheTTL := by decide
    omega

/-- Witness for C6: a call at exactly one TTL after the previous fetch
refreshes, stores the new payload, and advances `fetchedAt`. -/
theorem getRates_stale_refreshes_witness :
    (getRates 300000000000 (.ok (usdPayload, 300000000001))
        { payload := some usdPayload, fetchedAt := 0 }).fetched = true ∧
    (getRates 300000000000 (.ok (usdPayload, 300000000001))
        { payload := some usdPayload, fetchedAt := 0 }).cache =
      { payload := some usdPayload, fetchedAt := 300000000001 } ∧
    (getRates 300000000000 (.ok (usdPayload, 300000000001))
        { payload := some usdPayload, fetchedAt := 0 }).result =
      .ok (filterRates usdPayload, 300000000001) ∧
    (0 : ℤ) < 300000000001 := by
  have h := getRates_stale_refreshes 300000000000 300000000001 usdPayload
    { payload := some usdPayload, fetchedAt := 0 }
    (Or.inr (by decide)) (by decide)
  exact ⟨h.1, h.2.1, h.2.2.1, h.2.2.2 (by simp)⟩

/-- C7: a decoded upstream response whose base is not `"USD"` makes the
fetcher fail with the base-mismatch error; no snapshot is constructed, and
a `getRates` call driven by that fetch leaves the cache unchanged and
surfaces the failure to its caller. -/
theorem fetchFrankfurter_base_mismatch (env : FetchEnv)
    (resp : HttpResponse) (payload : FrankfurterResponse) (u : Unit)
    (hreq : env.newRequest = .ok u) (hdo : env.doRequest = .ok resp)
    (hst : resp.statusCode = 200) (hb : resp.body = .ok payload)
    (hbase : payload.base ≠ "USD") :
    fetchFrankfurter env = .error "unexpected base currency in response" ∧
    ∀ now c, (getRates now (fetchFrankfurter env) c).cache = c ∧
      ((getRates now (fetchFrankfurter env) c).fetched = true →
        (getRates now (fetchFrankfurter env) c).result =
          .error "unexpected base currency in response") := by
  have h1 : fetchFrankfurter env =
      .error "unexpected base currency in response" := by
    simp [fetchFrankfurter, hreq, hdo, hst, decodeAndValidate, hb, hbase]
  refine ⟨h1, fun now c => ?_⟩
  rw [h1]
  exact getRates_error_outcome now _ c

/-- Witness for C7: a `base: "EUR"` response is rejected and a `getRates`
call on an empty cache stores nothing and reports the failure. -/
theorem fetchFrankfurter_base_mismatch_witness :
    fetchFrankfurter
        { newRequest := .ok ()
          doRequest := .ok
            { statusCode := 200, status := "200 OK"
              body := .ok { base := "EUR", date := "2026-10-10",
                            rates := [("CNY", 7)] } }
          completedAt := 42 } =
      .error "unexpected base currency in response" ∧
    (getRates 0
        (fetchFrankfurter
          { newRequest := .ok ()
            doRequest := .ok
              { statusCode := 200, status := "200 OK"
                body := .ok { base := "EUR", date := "2026-10-10",
                              rates := [("CNY", 7)] } }
            completedAt := 42 })
        { payload := none, fetchedAt := 0 }).cache =
      { payload := none, fetchedAt := 0 } ∧
    (getRates 0
        (fetchFrankfurter
          { newRequest := .ok ()
            doRequest := .ok
              { statusCode := 200, status := "200 OK"
                body := .ok { base := "EUR", date := "2026-10-10",
                              rates := [("CNY", 7)] } }
            completedAt := 42 })
        { payload := none, fetchedAt := 0 }).result =
      .error "unexpected base currency in response" := by
  have h := fetchFrankfurter_base_mismatch
    { newRequest := .ok ()
      doRequest := .ok
        { statusCode := 200, status := "200 OK"
          body := .ok { base := "EUR", date := "2026-10-10",
                        rates := [("CNY", 7)] } }
      completedAt := 42 }
    { statusCode := 200, status := "200 OK"
      body := .ok { base := "EUR", date := "2026-10-10",
                    rates := [("CNY", 7)] } }
    { base := "EUR", date := "2026-10-10", rates := [("CNY", 7)] }
    () rfl rfl rfl rfl (by decide)
  exact ⟨h.1, (h.2 0 { payload := none, fetchedAt := 0 }).1,
    (h.2 0 { payload := none, fetchedAt := 0 }).2 (by rw [h.1]; rfl)⟩


/-- C8 counterexample: `204 No Content` belongs to the HTTP success class,
yet the fetcher rejects it with a status error — the code succeeds past the
status check only for exactly `200`, not for every success status. -/
theorem status_check_counterexample :
    isSuccessStatus 204 = true ∧
    fetchFrankfurter
        { newRequest := .ok ()
          doRequest := .ok
            { statusCode := 204, status := "204 No Content"
              body := .ok { base := "USD", date := "2026-10-10",
                            rates := [("CNY", 7)] } }
          completedAt := 0 } =
      .error "frankfurter responded with status 204 No Content" := by
  exact ⟨rfl, rfl⟩

/-- C8 (amended): with a transport-level success, a response status other
than `200` makes the fetcher fail with the status error carrying the status
description, and the fetcher proceeds past the status check exactly when
the status code is `200` (other 2xx success statuses are rejected too). -/
theorem fetchFrankfurter_status_check (env : FetchEnv)
    (resp : HttpResponse) (u : Unit)
    (hreq : env.newRequest = .ok u) (hdo : env.doRequest = .ok resp) :
    (resp.statusCode ≠ 200 →
      fetchFrankfurter env =
        .error ("frankfurter responded with status " ++ resp.status)) ∧
    (resp.statusCode = 200 →
      fetchFrankfurter env = decodeAndValidate resp.body env.completedAt) := by
  constructor
  · intro h
    simp [fetchFrankfurter, hreq, hdo, h]
  · intro h
    simp [fetchFrankfurter, hreq, hdo, h]

/-- Witness for the amended C8: a 503 response yields the status error, and
a 200 response proceeds to decoding and validation. -/
theorem fetchFrankfurter_status_check_witness :
    fetchFrankfurter
        { newRequest := .ok ()
          doRequest := .ok
            { statusCode := 503, status := "503 Service Unavailable"
              body := .error "no body" }
          completedAt := 0 } =
      .error "frankfurter responded with status 503 Service Unavailable" ∧
    fetchFrankfurter
        { newRequest := .ok ()
          doRequest := .ok
            { statusCode := 200, status := "200 OK"
              body := .ok usdPayload }
          completedAt := 7 } =
      decodeAndValidate (.ok usdPayload) 7 :=
  ⟨(fetchFrankfurter_status_check
      { newRequest := .ok ()
        doRequest := .ok
          { statusCode := 503, status := "503 Service Unavailable"
            body := .error "no body" }
        completedAt := 0 }
      { statusCode := 503, status := "503 Service Unavailable"
        body := .error "no body" } () rfl rfl).1 (by decide),
   (fetchFrankfurter_status_check
      { newRequest := .ok ()
        doRequest := .ok
          { statusCode := 200, status := "200 OK"
            body := .ok usdPayload }
        completedAt := 7 }
      { statusCode := 200, status := "200 OK"
        body := .ok usdPayload } () rfl rfl).2 rfl⟩

/-- C9: a `getRates` call driven by a `fetchFrankfurter` outcome preserves
the cache invariant — a present snapshot has base `"USD"` — and the
snapshot is only ever replaced wholesale by the payload and time of a
successful fetch (or left exactly as it was), never mutated in place. -/
theorem getRates_preserves_cacheInv (now : ℤ) (env : FetchEnv)
    (c : RateCache) (hinv : cacheInv c) :
    cacheInv ((getRates now (fetchFrankfurter env) c).cache) ∧
    ((getRates now (fetchFrankfurter env) c).cache = c ∨
      ∃ p t, fetchFrankfurter env = .ok (p, t) ∧
        (getRates now (fetchFrankfurter env) c).cache =
          { payload := some p, fetchedAt := t }) := by
  rw [getRates_eq_getRatesLocked]
  have hrefresh : getRatesLocked now (fetchFrankfurter env) c =
        doRefresh (fetchFrankfurter env) c →
      cacheInv ((getRatesLocked now (fetchFrankfurter env) c).cache) ∧
      ((getRatesLocked now (fetchFrankfurter env) c).cache = c ∨
        ∃ p t, fetchFrankfurter env = .ok (p, t) ∧
          (getRatesLocked now (fetchFrankfurter env) c).cache =
            { payload := some p, fetchedAt := t }) := by
    intro heq
    rw [heq]
    cases hf : fetchFrankfurter env with
    | error e => exact ⟨hinv, Or.inl rfl⟩
    | ok qt =>
      obtain ⟨q, t⟩ := qt
      refine ⟨?_, Or.inr ⟨q, t, rfl, rfl⟩⟩
      intro p hp
      simp only [doRefresh, Option.some.injEq] at hp
      rw [← hp]
      exact fetchFrankfurter_ok_base env q t hf
  rcases hc : c.payload with _ | p
  · exact hrefresh (getRatesLocked_stale now _ c (Or.inl hc))
  · by_cases hfr : now - c.fetchedAt < cacheTTL
    · rw [getRatesLocked_fresh now _ c p hc hfr]
      exact ⟨hinv, Or.inl rfl⟩
    · exact hrefresh (getRatesLocked_stale now _ c (Or.inr hfr))

/-- Witness for C9: a refresh through a concrete failed fetch on an empty
cache keeps the invariant and leaves the state in place. -/
theorem getRates_preserves_cacheInv_witness :
    cacheInv
      ((getRates 0
        (fetchFrankfurter
          { newRequest := .ok ()
            doRequest := .error "connection reset"
            completedAt := 0 })
        { payload := none, fetchedAt := 0 }).cache) ∧
    ((getRates 0
        (fetchFrankfurter
          { newRequest := .ok ()
            doRequest := .error "connection reset"
            completedAt := 0 })
        { payload := none, fetchedAt := 0 }).cache =
      { payload := none, fetchedAt := 0 } ∨
      ∃ p t, fetchFrankfurter
          { newRequest := .ok ()
            doRequest := .error "connection reset"
            completedAt := 0 } = .ok (p, t) ∧
        (getRates 0
          (fetchFrankfurter
            { newRequest := .ok ()
              doRequest := .error "connection reset"
              completedAt := 0 })
          { payload := none, fetchedAt := 0 }).cache =
          { payload := some p, fetchedAt := t }) :=
  getRates_preserves_cacheInv 0
    { newRequest := .ok (), doRequest := .error "connection reset"
      completedAt := 0 }
    { payload := none, fetchedAt := 0 }
    (fun p hp => by simp at hp)

/-- Both allocations of the refresh path land above every prior address:
on success the stored payload's rates live at `h.length` and the returned
map at `h.length + 1`. -/
theorem refreshH_result_addresses (fetch : FetchResult) (c : CacheRef)
    (h : Heap) :
    ∀ a t, (refreshH fetch c h).result = .ok (a, t) →
      ∀ p, (refreshH fetch c h).cache.payload = some p →
        p.ratesAddr = h.length ∧ a = h.length + 1 := by
  cases fetch with
  | error e =>
    intro a t hres
    exact absurd hres (by simp [refreshH])
  | ok qt =>
    obtain ⟨q, t2⟩ := qt
    intro a t hres p hp
    simp only [refreshH, Except.ok.injEq, Prod.mk.injEq] at hres
    simp only [refreshH, Option.some.injEq] at hp
    exact ⟨by rw [← hp], hres.1.symm⟩

/-- C10: in the heap model, every successful `getRates` call returns the
address of a map object distinct from the one the cached snapshot holds, so
overwriting the returned map leaves the snapshot's rates (and the cache
fields, which the heap write cannot touch) unchanged. -/
theorem getRatesH_returns_fresh_map (now : ℤ) (fetch : FetchResult)
    (c : CacheRef) (h : Heap)
    (hvalid : ∀ p, c.payload = some p → p.ratesAddr < h.length) :
    ∀ a t, (getRatesH now fetch c h).result = .ok (a, t) →
      ∀ p, (getRatesH now fetch c h).cache.payload = some p →
        p.ratesAddr ≠ a ∧
        ∀ m, heapGet (heapSet (getRatesH now fetch c h).heap a m)
            p.ratesAddr =
          heapGet (getRatesH now fetch c h).heap p.ratesAddr := by
  intro a t hres p hp
  rcases hc : c.payload with _ | p0
  · simp only [getRatesH, hc] at hres hp ⊢
    obtain ⟨haddr, ha⟩ := refreshH_result_addresses fetch c h a t hres p hp
    exact ⟨by omega, fun m => heapGet_heapSet_ne _ a p.ratesAddr m (by omega)⟩
  · by_cases hfr : now - c.fetchedAt < cacheTTL
    · simp only [getRatesH, hc, if_pos hfr] at hres hp ⊢
      have ha : a = h.length := by
        simp only [Except.ok.injEq, Prod.mk.injEq] at hres
        exact hres.1.symm
      have haddr : p.ratesAddr < h.length :=
        hvalid p (by rw [hc]; exact hp)
      exact ⟨by omega,
        fun m => heapGet_heapSet_ne _ a p.ratesAddr m (by omega)⟩
    · simp only [getRatesH, hc, if_neg hfr] at hres hp ⊢
      obtain ⟨haddr, ha⟩ := refreshH_result_addresses fetch c h a t hres p hp
      exact ⟨by omega,
        fun m => heapGet_heapSet_ne _ a p.ratesAddr m (by omega)⟩

/-- Witness for C10: a refresh on an empty heap returns the map at address
1 while the snapshot's own rates live at address 0; overwriting address 1
does not change what address 0 holds. -/
theorem getRatesH_returns_fresh_map_witness :
    ({ base := "USD", date := "2026-10-10", ratesAddr := 0 } :
        PayloadRef).ratesAddr ≠ 1 ∧
    heapGet
        (heapSet (getRatesH 0 (.ok (usdPayload, 5))
            { payload := none, fetchedAt := 0 } []).heap 1 [("CNY", 99)])
        ({ base := "USD", date := "2026-10-10", ratesAddr := 0 } :
          PayloadRef).ratesAddr =
      heapGet (getRatesH 0 (.ok (usdPayload, 5))
          { payload := none, fetchedAt := 0 } []).heap
        ({ base := "USD", date := "2026-10-10", ratesAddr := 0 } :
          PayloadRef).ratesAddr := by
  have h := getRatesH_returns_fresh_map 0 (.ok (usdPayload, 5))
    { payload := none, fetchedAt := 0 } []
    (fun p hp => by simp at hp) 1 5 rfl
    { base := "USD", date := "2026-10-10", ratesAddr := 0 } rfl
  exact ⟨h.1, h.2 [("CNY", 99)]⟩
